import Mathlib

/-!
Shallow embedding of `src/app.py` (music-recommender-web) and proofs about it.

The data model follows the Python dictionaries used by the app:
`Song`, `HistoryEvent`, `UserProfile`, and a profile store (an
insertion-ordered mapping from username to profile, modelled as an
association list, matching Python `dict` iteration order).

External library calls (`random.sample`, `sklearn.KMeans.fit_predict`,
`json.dump`/`json.load`) are modelled by explicit parameters or by an
explicit JSON value type; everything the repository itself computes is
translated directly from the source.
-/

/-- A catalog song record, `{song_name, artist, genre, mood, activity}`. -/
structure Song where
  song_name : String
  artist : String
  genre : String
  mood : String
  activity : String
  deriving DecidableEq, Repr

/-- A listening-history event, `{mood, artist, activity}`. -/
structure HistoryEvent where
  mood : String
  artist : String
  activity : String
  deriving DecidableEq, Repr

/-- A user profile, as stored in `user_profiles.json`. -/
structure UserProfile where
  favorite_mood : String
  favorite_activity : String
  listening_history : List HistoryEvent
  playlists : List Song
  likes : Nat
  deriving DecidableEq, Repr

/-- The profile store: Python `dict` from username to profile, modelled as
an insertion-ordered association list. -/
abbrev Store : Type := List (String × UserProfile)

/-- The fixed ten-song catalog hardcoded in `app.py` (lines 14-25). -/
def songs_dataset : List Song :=
  [ ⟨"Stronger", "Kanye West", "Hip Hop", "motivational", "gym"⟩,
    ⟨"Blinding Lights", "The Weeknd", "Pop", "energetic", "party"⟩,
    ⟨"Someone Like You", "Adele", "Soul", "sad", "study"⟩,
    ⟨"Happy", "Pharrell Williams", "Pop", "happy", "party"⟩,
    ⟨"Lose Yourself", "Eminem", "Hip Hop", "motivational", "gym"⟩,
    ⟨"Weightless", "Marconi Union", "Ambient", "calm", "study"⟩,
    ⟨"Viva La Vida", "Coldplay", "Alternative", "energetic", "party"⟩,
    ⟨"Lovely", "Billie Eilish", "Pop", "sad", "study"⟩,
    ⟨"Don\x27t Stop Me Now", "Queen", "Rock", "happy", "party"⟩,
    ⟨"Circles", "Post Malone", "Pop", "calm", "study"⟩ ]

/-- The list comprehension in `recommend_songs` (line 40): entries of the
catalog whose mood and activity both equal the inputs. -/
def matching_songs (mood activity : String) : List Song :=
  songs_dataset.filter (fun song => song.mood = mood ∧ song.activity = activity)

/-- `recommend_songs(mood, activity)` (lines 39-41).  The call
`random.sample(matching_songs, k)` draws `k` distinct elements uniformly at
random; it is modelled by an explicit `shuffle` parameter standing for the
random permutation the library draws, so the result is the first
`min 5 |matching|` elements of the shuffled matching list. -/
def recommend_songs (mood activity : String) (shuffle : List Song → List Song) :
    List Song :=
  let matching := matching_songs mood activity
  (shuffle matching).take (min 5 matching.length)

/-- `update_habits(user_profile, songs)` (lines 43-45): the Python loop
`for song in songs: listening_history.append({...})`, modelled as a left
fold appending one event per song. -/
def update_habits (user_profile : UserProfile) (songs : List Song) : UserProfile :=
  songs.foldl
    (fun profile song =>
      { profile with listening_history :=
          profile.listening_history ++ [⟨song.mood, song.artist, song.activity⟩] })
    user_profile

/-- The key list of `Counter(l)`: the distinct elements of `l` in order of
first occurrence, exactly the insertion order a Python `Counter` keeps. -/
def counterKeys (l : List String) : List String :=
  l.foldl (fun acc x => if x ∈ acc then acc else acc ++ [x]) []

/-- Scan of `max` over the tally: keeps the current best and replaces it
only on a strictly larger count, so the first key reaching the maximal
count wins — the behaviour of `Counter.most_common(1)` / `heapq.nlargest`
over the counter's insertion-ordered items. -/
def pickFirstMax (cnt : String → Nat) : String → List String → String
  | b, [] => b
  | b, x :: ks => if cnt b < cnt x then pickFirstMax cnt x ks else pickFirstMax cnt b ks

/-- `Counter(l).most_common(1)[0][0]` (line 52), `none` when `l` is empty. -/
def mostCommon1 (l : List String) : Option String :=
  match counterKeys l with
  | [] => none
  | k :: ks => some (pickFirstMax (fun x => l.count x) k ks)

/-- `create_personalized_playlist(user_profile)` (lines 47-54). -/
def create_personalized_playlist (user_profile : UserProfile) : List Song :=
  let history := user_profile.listening_history
  if history.isEmpty then []
  else
    match mostCommon1 (history.map (fun item => item.mood)) with
    | none => []
    | some favorite_mood =>
      (songs_dataset.filter (fun song => song.mood = favorite_mood)).take 10

/-- `Counter([h['mood'] for h in history]).get(m, 0)` (line 62). -/
def moodCount (history : List HistoryEvent) (m : String) : Nat :=
  (history.map (fun h => h.mood)).count m

/-- `Counter([h['activity'] for h in history]).get(a, 0)` (line 63). -/
def activityCount (history : List HistoryEvent) (a : String) : Nat :=
  (history.map (fun h => h.activity)).count a

/-- The 8-dimensional feature vector built per user (lines 64-73): counts of
the five enumerated moods then of the three enumerated activities. -/
def featureOf (history : List HistoryEvent) : List Nat :=
  [ moodCount history "happy",
    moodCount history "sad",
    moodCount history "energetic",
    moodCount history "calm",
    moodCount history "motivational",
    activityCount history "gym",
    activityCount history "study",
    activityCount history "party" ]

/-- `cluster_users(users)` (lines 56-79).  The call
`KMeans(n_clusters=k).fit_predict(features)` is the external sklearn
library; it is modelled by the parameter `fit_predict`, a function from the
cluster count and the feature matrix to one label per row. -/
def cluster_users (users : Store)
    (fit_predict : Nat → List (List Nat) → List Nat) : List (String × Nat) :=
  if users.length < 2 then []
  else
    let features := users.map (fun up => featureOf up.2.listening_history)
    let usernames := users.map (fun up => up.1)
    usernames.zip (fit_predict (min 2 users.length) features)

/-- The profile created on registration (lines 111-117). -/
def freshProfile : UserProfile :=
  { favorite_mood := ""
    favorite_activity := ""
    listening_history := []
    playlists := []
    likes := 0 }

/-- Python `dict` lookup `users[name]` on the insertion-ordered store. -/
def storeLookup (users : Store) (name : String) : Option UserProfile :=
  (users.find? (fun up => up.1 = name)).map (fun up => up.2)

/-- The Register branch of `login()` (lines 107-121): if the name is already
a key of `users` nothing changes and nothing is saved; otherwise a fresh
profile is inserted (Python dict insertion appends in iteration order) and
the store is saved.  The boolean records whether `save_users` ran. -/
def register (users : Store) (new_username : String) : Store × Bool :=
  if new_username ∈ users.map (fun up => up.1) then (users, false)
  else (users ++ [(new_username, freshProfile)], true)

/-- The My Playlist branch of `main_app()` (lines 147-156): the builder runs;
only when its result is truthy (nonempty) is the profile's `playlists` field
replaced and the store saved.  The boolean records whether `save_users`
ran. -/
def viewMyPlaylist (user_profile : UserProfile) : UserProfile × Bool :=
  let playlist := create_personalized_playlist user_profile
  if playlist.isEmpty then (user_profile, false)
  else ({ user_profile with playlists := playlist }, true)

/-- A JSON value, the common data model of Python's `json.dump` and
`json.load` (lines 29-37): the persisted file is the serialization of such a
value, and `json` round-trips values built from dicts, lists, strings and
ints exactly. -/
inductive Json where
  | str : String → Json
  | num : Int → Json
  | arr : List Json → Json
  | obj : List (String × Json) → Json

/-- How a `listening_history` entry appears in the persisted file (§6):
`{mood, artist, activity}`. -/
def encodeEvent (e : HistoryEvent) : Json :=
  .obj [("mood", .str e.mood), ("artist", .str e.artist), ("activity", .str e.activity)]

/-- How a `playlists` entry appears in the persisted file (§6): a full Song
object `{song_name, artist, genre, mood, activity}`. -/
def encodeSong (s : Song) : Json :=
  .obj [("song_name", .str s.song_name), ("artist", .str s.artist),
        ("genre", .str s.genre), ("mood", .str s.mood), ("activity", .str s.activity)]

/-- How a profile appears in the persisted file (§6): the stable field names
`favorite_mood`, `favorite_activity`, `listening_history`, `playlists`,
`likes`. -/
def encodeProfile (p : UserProfile) : Json :=
  .obj [("favorite_mood", .str p.favorite_mood),
        ("favorite_activity", .str p.favorite_activity),
        ("listening_history", .arr (p.listening_history.map encodeEvent)),
        ("playlists", .arr (p.playlists.map encodeSong)),
        ("likes", .num p.likes)]

/-- `save_users(users)` (lines 35-37): `json.dump` of the store dict, i.e.
the JSON value whose top level maps each username to its profile object. -/
def save_users (users : Store) : Json :=
  .obj (users.map (fun up => (up.1, encodeProfile up.2)))

/-- Reading one history event back from the persisted format. -/
def decodeEvent : Json → Option HistoryEvent
  | .obj [("mood", .str m), ("artist", .str ar), ("activity", .str ac)] =>
      some ⟨m, ar, ac⟩
  | _ => none

/-- Reading one song back from the persisted format. -/
def decodeSong : Json → Option Song
  | .obj [("song_name", .str sn), ("artist", .str ar), ("genre", .str g),
          ("mood", .str m), ("activity", .str ac)] => some ⟨sn, ar, g, m, ac⟩
  | _ => none

/-- Reading a list of history events back from the persisted format. -/
def decodeEvents : List Json → Option (List HistoryEvent)
  | [] => some []
  | j :: js =>
    match decodeEvent j, decodeEvents js with
    | some e, some es => some (e :: es)
    | _, _ => none

/-- Reading a list of songs back from the persisted format. -/
def decodeSongs : List Json → Option (List Song)
  | [] => some []
  | j :: js =>
    match decodeSong j, decodeSongs js with
    | some s, some ss => some (s :: ss)
    | _, _ => none

/-- Reading one profile back from the persisted format. -/
def decodeProfile : Json → Option UserProfile
  | .obj [("favorite_mood", .str fm), ("favorite_activity", .str fa),
          ("listening_history", .arr hs), ("playlists", .arr ps),
          ("likes", .num n)] =>
    match decodeEvents hs, decodeSongs ps, n with
    | some es, some ss, .ofNat k => some ⟨fm, fa, es, ss, k⟩
    | _, _, _ => none
  | _ => none

/-- Reading the store's entries back from the persisted format. -/
def decodeEntries : List (String × Json) → Option Store
  | [] => some []
  | (k, v) :: rest =>
    match decodeProfile v, decodeEntries rest with
    | some p, some s => some ((k, p) :: s)
    | _, _ => none

/-- `load_users()` (lines 29-33) on an existing file: `json.load` of the
persisted document, read back as a store; the absent-file case yields the
empty mapping and is the `save_users []` document's round trip. -/
def load_users : Json → Option Store
  | .obj entries => decodeEntries entries
  | _ => none

/-- The five mood tags the app enumerates (selectbox, line 133; feature
dimensions, lines 65-69). -/
def moodEnum : List String := ["happy", "sad", "energetic", "calm", "motivational"]

/-- The three activity tags the app enumerates (selectbox, line 134; feature
dimensions, lines 70-72). -/
def activityEnum : List String := ["gym", "study", "party"]

/-- An event that contributes to at least one feature dimension of
`cluster_users`: its mood is one of the five counted moods or its activity
one of the three counted activities. -/
def relevantEvent (e : HistoryEvent) : Bool :=
  decide (e.mood ∈ moodEnum) || decide (e.activity ∈ activityEnum)

/-- The loop in `update_habits` appends, in order, one event per song. -/
theorem update_habits_eq (p : UserProfile) (songs : List Song) :
    update_habits p songs =
      { p with listening_history :=
          p.listening_history
            ++ songs.map (fun song => ⟨song.mood, song.artist, song.activity⟩) } := by
  induction songs generalizing p with
  | nil => simp [update_habits]
  | cons s ss ih =>
    show update_habits
        { p with listening_history :=
            p.listening_history ++ [⟨s.mood, s.artist, s.activity⟩] } ss = _
    rw [ih]
    simp

/-- C4: `update_habits` appends one `{mood, artist, activity}` event per song
in input order: the history grows by exactly the number of songs, the old
history is an unchanged prefix, the appended suffix is the songs' events in
order, and an empty song sequence is a no-op. -/
theorem update_habits_spec (p : UserProfile) (songs : List Song) :
    (update_habits p songs).listening_history.length
        = p.listening_history.length + songs.length ∧
    (update_habits p songs).listening_history.take p.listening_history.length
        = p.listening_history ∧
    (update_habits p songs).listening_history.drop p.listening_history.length
        = songs.map (fun song => ⟨song.mood, song.artist, song.activity⟩) ∧
    update_habits p [] = p := by
  refine ⟨?_, ?_, ?_, ?_⟩
  · rw [update_habits_eq]; simp
  · rw [update_habits_eq]; simp [List.take_left]
  · rw [update_habits_eq]; simp [List.drop_left]
  · rw [update_habits_eq]; simp

/-- C7: the playlist builder is a pure function of the listening history —
profiles with the same history get the same playlist — and rebuilding after
the builder's own `playlists` update returns the identical result. -/
theorem create_personalized_playlist_deterministic (p q : UserProfile)
    (hpq : p.listening_history = q.listening_history) :
    create_personalized_playlist p = create_personalized_playlist q ∧
    create_personalized_playlist
        { p with playlists := create_personalized_playlist p }
      = create_personalized_playlist p := by
  constructor
  · simp only [create_personalized_playlist, hpq]
  · rfl

/-- C7 witness: two profiles sharing a history but differing elsewhere get
the same playlist. -/
theorem create_personalized_playlist_deterministic_witness :
    create_personalized_playlist ⟨"", "", [⟨"happy", "Queen", "party"⟩], [], 0⟩
      = create_personalized_playlist
          ⟨"x", "y", [⟨"happy", "Queen", "party"⟩],
            [⟨"Circles", "Post Malone", "Pop", "calm", "study"⟩], 3⟩ :=
  (create_personalized_playlist_deterministic _ _ rfl).1

/-- C8: registering a username not in the store appends a profile with empty
favorites, empty history, empty playlists and zero likes, and saves the
store; registering an existing username leaves the store unchanged and saves
nothing. -/
theorem register_spec (users : Store) (name : String) :
    (name ∉ users.map (fun up => up.1) →
        register users name = (users ++ [(name, freshProfile)], true) ∧
        storeLookup (register users name).1 name = some freshProfile ∧
        freshProfile = ⟨"", "", [], [], 0⟩) ∧
    (name ∈ users.map (fun up => up.1) →
        register users name = (users, false)) := by
  constructor
  · intro hnot
    have hreg : register users name = (users ++ [(name, freshProfile)], true) := by
      simp [register, hnot]
    refine ⟨hreg, ?_, rfl⟩
    rw [hreg]
    have hnone : users.find? (fun up => decide (up.1 = name)) = none := by
      rw [List.find?_eq_none]
      intro x hx
      simp only [decide_eq_true_eq]
      intro heq
      exact hnot (List.mem_map.mpr ⟨x, hx, heq⟩)
    simp [storeLookup, List.find?_append, hnone]
  · intro hmem
    simp [register, hmem]

/-- C8 witness: a fresh name registers with the empty profile and the store
is saved; re-registering the same name changes nothing and saves nothing. -/
theorem register_spec_witness :
    register [] "alice" = ([("alice", freshProfile)], true) ∧
    register [("alice", freshProfile)] "alice" = ([("alice", freshProfile)], false) :=
  ⟨((register_spec [] "alice").1 (by simp)).1,
   (register_spec [("alice", freshProfile)] "alice").2 (by simp)⟩

/-- C5 counterexample: on a profile with empty history but a nonempty stored
`playlists` field, the My Playlist branch does not replace the field with the
builder's (empty) result — the code only writes when the result is truthy. -/
theorem viewMyPlaylist_counterexample :
    ¬ ((viewMyPlaylist
          ⟨"", "", [],
            [⟨"Stronger", "Kanye West", "Hip Hop", "motivational", "gym"⟩], 0⟩).1.playlists
        = create_personalized_playlist
            ⟨"", "", [],
              [⟨"Stronger", "Kanye West", "Hip Hop", "motivational", "gym"⟩], 0⟩) := by
  decide

/-- C5 (amended): the My Playlist branch replaces the `playlists` field with
the builder's result and saves the store exactly when that result is
nonempty; when the builder returns the empty sequence the profile is left
unchanged and nothing is persisted. -/
theorem viewMyPlaylist_spec (p : UserProfile) :
    (create_personalized_playlist p ≠ [] →
        viewMyPlaylist p
          = ({ p with playlists := create_personalized_playlist p }, true)) ∧
    (create_personalized_playlist p = [] →
        viewMyPlaylist p = (p, false)) := by
  constructor
  · intro h
    simp [viewMyPlaylist, List.isEmpty_iff, h]
  · intro h
    simp [viewMyPlaylist, List.isEmpty_iff, h]

/-- C5 witness: with one happy-tagged listen in the history the builder's
result is nonempty, the field is replaced wholesale and the store saved. -/
theorem viewMyPlaylist_spec_witness :
    viewMyPlaylist ⟨"", "", [⟨"happy", "Queen", "party"⟩], [], 0⟩
      = ({ (⟨"", "", [⟨"happy", "Queen", "party"⟩], [], 0⟩ : UserProfile) with
            playlists :=
              create_personalized_playlist
                ⟨"", "", [⟨"happy", "Queen", "party"⟩], [], 0⟩ }, true) :=
  (viewMyPlaylist_spec _).1 (by decide)

/-- Per mood value, the fixed catalog holds at most two songs. -/
theorem mood_filter_length_le (mood : String) :
    (songs_dataset.filter (fun song => song.mood = mood)).length ≤ 2 := by
  by_cases h1 : mood = "happy"
  · subst h1; decide
  by_cases h2 : mood = "sad"
  · subst h2; decide
  by_cases h3 : mood = "energetic"
  · subst h3; decide
  by_cases h4 : mood = "calm"
  · subst h4; decide
  by_cases h5 : mood = "motivational"
  · subst h5; decide
  have hempty : songs_dataset.filter (fun song => song.mood = mood) = [] := by
    rw [List.filter_eq_nil_iff]
    intro a ha
    simp only [decide_eq_true_eq]
    simp only [songs_dataset, List.mem_cons, List.mem_singleton] at ha
    rcases ha with rfl | rfl | rfl | rfl | rfl | rfl | rfl | rfl | rfl | rfl | h <;>
      first
        | exact fun hh => h5 hh.symm
        | exact fun hh => h3 hh.symm
        | exact fun hh => h2 hh.symm
        | exact fun hh => h1 hh.symm
        | exact fun hh => h4 hh.symm
        | exact absurd h (by simp)
  rw [hempty]
  decide

/-- The mood-and-activity filter is a sublist of the mood-only filter. -/
theorem matching_songs_sublist (mood activity : String) :
    (matching_songs mood activity).Sublist
      (songs_dataset.filter (fun song => song.mood = mood)) := by
  apply List.monotone_filter_right
  intro a ha
  simp only [decide_eq_true_eq] at ha ⊢
  exact ha.1

/-- C9: on the shipped ten-song catalog every (mood, activity) pair matches
at most two entries, so `recommend_songs` returns at most two songs for any
input and the `min(5, |matches|)` cap of five is never reached. -/
theorem recommend_songs_at_most_two (mood activity : String)
    (shuffle : List Song → List Song) :
    (matching_songs mood activity).length ≤ 2 ∧
    (recommend_songs mood activity shuffle).length ≤ 2 := by
  have hb : (matching_songs mood activity).length ≤ 2 :=
    le_trans (matching_songs_sublist mood activity).length_le
      (mood_filter_length_le mood)
  refine ⟨hb, ?_⟩
  calc (recommend_songs mood activity shuffle).length
      ≤ min 5 (matching_songs mood activity).length := by
        simp only [recommend_songs, List.length_take]
        exact min_le_left _ _
    _ ≤ (matching_songs mood activity).length := min_le_right _ _
    _ ≤ 2 := hb

/-- C1: for any draw of `random.sample` (any permutation of the matching
list), `recommend_songs` returns `min 5 |matches|` songs, each a catalog
entry whose mood and activity equal the inputs (case-sensitive), with no
entry repeated; with zero matches it returns the empty sequence.  Uniformity
of the draw is the `random.sample` library contract, modelled here by
quantifying over every permutation `shuffle` of the matching list. -/
theorem recommend_songs_spec (mood activity : String)
    (shuffle : List Song → List Song)
    (hperm : (shuffle (matching_songs mood activity)).Perm
        (matching_songs mood activity)) :
    (recommend_songs mood activity shuffle).length
        = min 5 (matching_songs mood activity).length ∧
    (∀ s ∈ recommend_songs mood activity shuffle,
        s ∈ songs_dataset ∧ s.mood = mood ∧ s.activity = activity) ∧
    (recommend_songs mood activity shuffle).Nodup ∧
    (matching_songs mood activity = [] →
        recommend_songs mood activity shuffle = []) := by
  refine ⟨?_, ?_, ?_, ?_⟩
  · simp only [recommend_songs, List.length_take, hperm.length_eq]
    exact Nat.min_eq_left (min_le_right _ _)
  · intro s hs
    have hsM : s ∈ matching_songs mood activity :=
      hperm.subset (List.mem_of_mem_take hs)
    have hm := List.mem_filter.mp hsM
    have hp := of_decide_eq_true hm.2
    exact ⟨hm.1, hp.1, hp.2⟩
  · have hnd : (matching_songs mood activity).Nodup :=
      List.Nodup.filter _ (by decide : songs_dataset.Nodup)
    exact (List.take_sublist _ _).nodup (hperm.nodup_iff.mpr hnd)
  · intro h
    have hsh : shuffle (matching_songs mood activity) = [] :=
      List.Perm.eq_nil (h ▸ hperm)
    simp [recommend_songs, hsh, h]

/-- C1 witness: the identity draw on the motivational/gym pair returns both
matching catalog entries and nothing else. -/
theorem recommend_songs_spec_witness :
    (recommend_songs "motivational" "gym" id).length
        = min 5 (matching_songs "motivational" "gym").length ∧
    (recommend_songs "motivational" "gym" id).length = 2 := by
  have h := (recommend_songs_spec "motivational" "gym" id (List.Perm.refl _)).1
  exact ⟨h, by rw [h]; decide⟩

/-- C3: clustering fewer than two users yields the empty sequence; on `N ≥ 2`
users it yields exactly `N` (username, label) pairs, one per user in store
order, with every label below `min 2 N` (sklearn's `fit_predict` with
`n_clusters = k` returns one label in `{0, ..., k-1}` per row — that library
contract is the stated hypothesis on the `fit_predict` parameter), and the
matrix handed to `fit_predict` is exactly one 8-dimensional count vector per
user: the five mood counts then the three activity counts. -/
theorem cluster_users_spec (users : Store)
    (fit_predict : Nat → List (List Nat) → List Nat)
    (hlen : (fit_predict (min 2 users.length)
        (users.map (fun up => featureOf up.2.listening_history))).length
          = users.length)
    (hlab : ∀ lab ∈ fit_predict (min 2 users.length)
        (users.map (fun up => featureOf up.2.listening_history)),
          lab < min 2 users.length) :
    (users.length < 2 → cluster_users users fit_predict = []) ∧
    (2 ≤ users.length →
      (cluster_users users fit_predict).length = users.length ∧
      (cluster_users users fit_predict).map Prod.fst
          = users.map (fun up => up.1) ∧
      (∀ pr ∈ cluster_users users fit_predict, pr.2 < min 2 users.length) ∧
      min 2 users.length = 2 ∧
      cluster_users users fit_predict
        = (users.map (fun up => up.1)).zip
            (fit_predict (min 2 users.length)
              (users.map (fun up => featureOf up.2.listening_history)))) := by
  constructor
  · intro h
    simp [cluster_users, h]
  · intro h
    have hnot : ¬ users.length < 2 := Nat.not_lt.mpr h
    have hcl : cluster_users users fit_predict
        = (users.map (fun up => up.1)).zip
            (fit_predict (min 2 users.length)
              (users.map (fun up => featureOf up.2.listening_history))) := by
      simp [cluster_users, hnot]
    refine ⟨?_, ?_, ?_, Nat.min_eq_left h, hcl⟩
    · rw [hcl, List.length_zip, hlen]
      simp
    · rw [hcl]
      apply List.map_fst_zip
      rw [hlen, List.length_map]
    · intro pr hpr
      rw [hcl] at hpr
      obtain ⟨a, b, rfl⟩ : ∃ a b, pr = (a, b) := ⟨pr.1, pr.2, rfl⟩
      exact hlab _ (List.of_mem_zip hpr).2

/-- C3 witness: a two-user store with a label function meeting the
`fit_predict` contract yields one labelled pair per user. -/
theorem cluster_users_spec_witness :
    (cluster_users
        [("alice", freshProfile),
         ("bob", ⟨"", "", [⟨"happy", "Queen", "party"⟩], [], 0⟩)]
        (fun _ feats => feats.map (fun _ => 0))).length = 2 := by
  have h := ((cluster_users_spec
      [("alice", freshProfile),
       ("bob", ⟨"", "", [⟨"happy", "Queen", "party"⟩], [], 0⟩)]
      (fun _ feats => feats.map (fun _ => 0))
      (by decide) (by decide)).2 (by decide)).1
  simpa using h

/-- Membership in the `counterKeys` fold: an element is in the accumulated
key list exactly when it was there already or occurs in the remaining
input. -/
theorem counterKeys_go_mem (l : List String) :
    ∀ (acc : List String) (x : String),
      x ∈ l.foldl (fun acc y => if y ∈ acc then acc else acc ++ [y]) acc
        ↔ x ∈ acc ∨ x ∈ l := by
  induction l with
  | nil => intro acc x; simp
  | cons y l ih =>
    intro acc x
    simp only [List.foldl_cons]
    rw [ih]
    by_cases h : y ∈ acc
    · simp only [if_pos h, List.mem_cons]
      constructor
      · rintro (hx | hx)
        · exact Or.inl hx
        · exact Or.inr (Or.inr hx)
      · rintro (hx | rfl | hx)
        · exact Or.inl hx
        · exact Or.inl h
        · exact Or.inr hx
    · simp only [if_neg h, List.mem_append, List.mem_singleton, List.mem_cons]
      tauto

/-- The tally's key list holds exactly the values occurring in the input. -/
theorem counterKeys_mem (l : List String) (x : String) :
    x ∈ counterKeys l ↔ x ∈ l := by
  have h := counterKeys_go_mem l [] x
  simpa [counterKeys] using h

/-- The `counterKeys` fold keeps the accumulated key list duplicate-free. -/
theorem counterKeys_go_nodup (l : List String) :
    ∀ acc : List String, acc.Nodup →
      (l.foldl (fun acc y => if y ∈ acc then acc else acc ++ [y]) acc).Nodup := by
  induction l with
  | nil => intro acc h; simpa
  | cons y l ih =>
    intro acc hacc
    simp only [List.foldl_cons]
    by_cases h : y ∈ acc
    · rw [if_pos h]; exact ih acc hacc
    · rw [if_neg h]
      refine ih _ (List.Nodup.append hacc (List.nodup_singleton y) ?_)
      intro a ha hay
      rw [List.mem_singleton] at hay
      exact h (hay ▸ ha)

/-- Each value appears once in the tally's key list. -/
theorem counterKeys_nodup (l : List String) : (counterKeys l).Nodup :=
  counterKeys_go_nodup l [] List.nodup_nil

/-- The strict-improvement scan returns a maximal-count element, and every
key standing before it in the scanned list has a strictly smaller count: the
first maximal key wins. -/
theorem pickFirstMax_spec (cnt : String → Nat) :
    ∀ (ks : List String) (b : String),
      (∀ x ∈ b :: ks, cnt x ≤ cnt (pickFirstMax cnt b ks)) ∧
      ∃ pre post, b :: ks = pre ++ pickFirstMax cnt b ks :: post ∧
        ∀ x ∈ pre, cnt x < cnt (pickFirstMax cnt b ks) := by
  intro ks
  induction ks with
  | nil =>
    intro b
    refine ⟨?_, [], [], rfl, by simp⟩
    intro x hx
    rw [List.mem_singleton] at hx
    subst hx
    exact Nat.le_refl _
  | cons y ks ih =>
    intro b
    by_cases h : cnt b < cnt y
    · have hred : pickFirstMax cnt b (y :: ks) = pickFirstMax cnt y ks := by
        simp [pickFirstMax, h]
      obtain ⟨hbound, pre, post, hdec, hpre⟩ := ih y
      rw [hred]
      constructor
      · intro x hx
        rcases List.mem_cons.mp hx with rfl | hx'
        · exact Nat.le_of_lt (Nat.lt_of_lt_of_le h (hbound y (List.mem_cons_self y ks)))
        · exact hbound x hx'
      · refine ⟨b :: pre, post, by rw [List.cons_append, ← hdec], ?_⟩
        intro x hx
        rcases List.mem_cons.mp hx with rfl | hx'
        · exact Nat.lt_of_lt_of_le h (hbound y (List.mem_cons_self y ks))
        · exact hpre x hx'
    · have hred : pickFirstMax cnt b (y :: ks) = pickFirstMax cnt b ks := by
        simp [pickFirstMax, h]
      obtain ⟨hbound, pre, post, hdec, hpre⟩ := ih b
      rw [hred]
      constructor
      · intro x hx
        rcases List.mem_cons.mp hx with rfl | hx'
        · exact hbound x (List.mem_cons_self x ks)
        · rcases List.mem_cons.mp hx' with rfl | hx''
          · exact Nat.le_trans (Nat.le_of_not_lt h) (hbound b (List.mem_cons_self b ks))
          · exact hbound x (List.mem_cons_of_mem b hx'')
      · cases pre with
        | nil =>
          have hb : b = pickFirstMax cnt b ks := by
            rw [List.nil_append] at hdec
            injection hdec with h1 h2
          refine ⟨[], y :: ks, ?_, by simp⟩
          rw [List.nil_append, ← hb]
        | cons a pre' =>
          have h1 : b = a ∧ ks = pre' ++ pickFirstMax cnt b ks :: post := by
            rw [List.cons_append] at hdec
            injection hdec with ha hk
            exact ⟨ha, hk⟩
          have hblt : cnt b < cnt (pickFirstMax cnt b ks) :=
            h1.1 ▸ hpre a (List.mem_cons_self a pre')
          refine ⟨b :: y :: pre', post, ?_, ?_⟩
          · rw [List.cons_append, List.cons_append, ← h1.2]
          · intro x hx
            rcases List.mem_cons.mp hx with rfl | hx'
            · exact hblt
            · rcases List.mem_cons.mp hx' with rfl | hx''
              · exact Nat.lt_of_le_of_lt (Nat.le_of_not_lt h) hblt
              · exact hpre x (List.mem_cons_of_mem a hx'')

/-- `most_common(1)` on a nonempty list: the returned value occurs in the
list, its count is maximal, and every key placed before it in the tally's
first-encounter key order has a strictly smaller count. -/
theorem mostCommon1_spec (l : List String) (hl : l ≠ []) :
    ∃ fav, mostCommon1 l = some fav ∧ fav ∈ l ∧
      (∀ m ∈ l, l.count m ≤ l.count fav) ∧
      ∃ pre post, counterKeys l = pre ++ fav :: post ∧
        ∀ m ∈ pre, l.count m < l.count fav := by
  have hck : counterKeys l ≠ [] := by
    obtain ⟨x, xs, rfl⟩ := List.exists_cons_of_ne_nil hl
    intro hempty
    have hx : x ∈ counterKeys (x :: xs) :=
      (counterKeys_mem _ _).mpr (List.mem_cons_self x xs)
    rw [hempty] at hx
    exact absurd hx (List.not_mem_nil x)
  obtain ⟨k, ks, hkks⟩ := List.exists_cons_of_ne_nil hck
  obtain ⟨hbound, pre, post, hdec, hpre⟩ :=
    pickFirstMax_spec (fun x => l.count x) ks k
  refine ⟨pickFirstMax (fun x => l.count x) k ks, ?_, ?_, ?_, pre, post, ?_, hpre⟩
  · simp [mostCommon1, hkks]
  · have hfavck : pickFirstMax (fun x => l.count x) k ks ∈ k :: ks := by
      rw [hdec]
      exact List.mem_append_right _ (List.mem_cons_self _ _)
    rw [← hkks] at hfavck
    exact (counterKeys_mem _ _).mp hfavck
  · intro m hm
    have hmck : m ∈ k :: ks := by
      rw [← hkks]
      exact (counterKeys_mem _ _).mpr hm
    exact hbound m hmck
  · rw [hkks, hdec]

/-- C2: with an empty listening history the playlist builder returns the
empty sequence; otherwise there is a favorite mood — a mood occurring in the
history with maximal count, every tally key before it counting strictly
less (the first-encountered tie-break) — and the result is the first at
most 10 catalog entries of that mood in declaration order. -/
theorem create_personalized_playlist_spec (p : UserProfile) :
    (p.listening_history = [] → create_personalized_playlist p = []) ∧
    (p.listening_history ≠ [] →
      ∃ fav,
        mostCommon1 (p.listening_history.map (fun item => item.mood))
            = some fav ∧
        fav ∈ p.listening_history.map (fun item => item.mood) ∧
        (∀ m ∈ p.listening_history.map (fun item => item.mood),
            (p.listening_history.map (fun item => item.mood)).count m
              ≤ (p.listening_history.map (fun item => item.mood)).count fav) ∧
        (∃ pre post,
            counterKeys (p.listening_history.map (fun item => item.mood))
                = pre ++ fav :: post ∧
            ∀ m ∈ pre,
              (p.listening_history.map (fun item => item.mood)).count m
                < (p.listening_history.map (fun item => item.mood)).count fav) ∧
        create_personalized_playlist p
          = (songs_dataset.filter (fun song => song.mood = fav)).take 10) := by
  constructor
  · intro h
    simp [create_personalized_playlist, h]
  · intro hne
    have hm : p.listening_history.map (fun item => item.mood) ≠ [] := by
      simpa using hne
    obtain ⟨fav, hfav, hmem, hcount, hdec⟩ := mostCommon1_spec _ hm
    refine ⟨fav, hfav, hmem, hcount, hdec, ?_⟩
    have hie : p.listening_history.isEmpty = false := by
      simpa [List.isEmpty_iff] using hne
    simp [create_personalized_playlist, hie, hfav]

/-- C2 witness: the spec's scenario — two happy listens and one sad listen
make "happy" the favorite mood, and the playlist is exactly the two
happy-tagged catalog entries in declaration order. -/
theorem create_personalized_playlist_spec_witness :
    (⟨"", "", [⟨"happy", "a", "party"⟩, ⟨"happy", "a", "party"⟩,
        ⟨"sad", "b", "study"⟩], [], 0⟩ : UserProfile).listening_history ≠ [] ∧
    create_personalized_playlist
        ⟨"", "", [⟨"happy", "a", "party"⟩, ⟨"happy", "a", "party"⟩,
          ⟨"sad", "b", "study"⟩], [], 0⟩
      = [⟨"Happy", "Pharrell Williams", "Pop", "happy", "party"⟩,
         ⟨"Don\x27t Stop Me Now", "Queen", "Rock", "happy", "party"⟩] := by
  constructor
  · decide
  · obtain ⟨fav, h1, h2, h3, h4, h5⟩ :=
      (create_personalized_playlist_spec
        ⟨"", "", [⟨"happy", "a", "party"⟩, ⟨"happy", "a", "party"⟩,
          ⟨"sad", "b", "study"⟩], [], 0⟩).2 (by decide)
    have hfav : fav = "happy" := by
      have hc : some fav = some "happy" := by
        rw [← h1]; decide
      exact Option.some.inj hc
    rw [h5, hfav]
    decide

/-- Unfolding a mood count over one more event. -/
theorem moodCount_cons (e : HistoryEvent) (t : List HistoryEvent) (m : String) :
    moodCount (e :: t) m = moodCount t m + (if e.mood = m then 1 else 0) := by
  simp [moodCount, List.count_cons]

/-- Unfolding an activity count over one more event. -/
theorem activityCount_cons (e : HistoryEvent) (t : List HistoryEvent) (a : String) :
    activityCount (e :: t) a = activityCount t a + (if e.activity = a then 1 else 0) := by
  simp [activityCount, List.count_cons]

/-- Dropping the irrelevant events changes no enumerated mood count. -/
theorem moodCount_filter_relevant (t : List HistoryEvent) (m : String)
    (hm : m ∈ moodEnum) :
    moodCount (t.filter relevantEvent) m = moodCount t m := by
  induction t with
  | nil => rfl
  | cons e t ih =>
    by_cases he : relevantEvent e = true
    · rw [List.filter_cons_of_pos he, moodCount_cons, moodCount_cons, ih]
    · have hemood : ¬ e.mood = m := fun hh => he (by
        simp only [relevantEvent, Bool.or_eq_true, decide_eq_true_eq]
        exact Or.inl (hh ▸ hm))
      rw [List.filter_cons_of_neg he, ih, moodCount_cons]
      simp [hemood]

/-- Dropping the irrelevant events changes no enumerated activity count. -/
theorem activityCount_filter_relevant (t : List HistoryEvent) (a : String)
    (ha : a ∈ activityEnum) :
    activityCount (t.filter relevantEvent) a = activityCount t a := by
  induction t with
  | nil => rfl
  | cons e t ih =>
    by_cases he : relevantEvent e = true
    · rw [List.filter_cons_of_pos he, activityCount_cons, activityCount_cons, ih]
    · have heact : ¬ e.activity = a := fun hh => he (by
        simp only [relevantEvent, Bool.or_eq_true, decide_eq_true_eq]
        exact Or.inr (hh ▸ ha))
      rw [List.filter_cons_of_neg he, ih, activityCount_cons]
      simp [heact]

/-- C10: only the five enumerated moods and three enumerated activities feed
the clustering feature vector — two histories agreeing on their relevant
events (those with an enumerated mood or activity) get identical feature
vectors, and a history with no relevant event gets the all-zero vector. -/
theorem featureOf_spec (h1 h2 : List HistoryEvent)
    (hf : h1.filter relevantEvent = h2.filter relevantEvent) :
    featureOf h1 = featureOf h2 ∧
    (h1.filter relevantEvent = [] → featureOf h1 = [0, 0, 0, 0, 0, 0, 0, 0]) := by
  have hm : ∀ m ∈ moodEnum, moodCount h1 m = moodCount h2 m := by
    intro m hmem
    rw [← moodCount_filter_relevant h1 m hmem,
        ← moodCount_filter_relevant h2 m hmem, hf]
  have ha : ∀ a ∈ activityEnum, activityCount h1 a = activityCount h2 a := by
    intro a hmem
    rw [← activityCount_filter_relevant h1 a hmem,
        ← activityCount_filter_relevant h2 a hmem, hf]
  constructor
  · simp only [featureOf]
    rw [hm "happy" (by decide), hm "sad" (by decide), hm "energetic" (by decide),
        hm "calm" (by decide), hm "motivational" (by decide),
        ha "gym" (by decide), ha "study" (by decide), ha "party" (by decide)]
  · intro hnil
    have hz : ∀ m ∈ moodEnum, moodCount h1 m = 0 := by
      intro m hmem
      rw [← moodCount_filter_relevant h1 m hmem, hnil]
      rfl
    have hza : ∀ a ∈ activityEnum, activityCount h1 a = 0 := by
      intro a hmem
      rw [← activityCount_filter_relevant h1 a hmem, hnil]
      rfl
    simp only [featureOf]
    rw [hz "happy" (by decide), hz "sad" (by decide), hz "energetic" (by decide),
        hz "calm" (by decide), hz "motivational" (by decide),
        hza "gym" (by decide), hza "study" (by decide), hza "party" (by decide)]

/-- C10 witness: one event entirely outside the enumerations produces the
same feature vector as an empty history, the all-zero vector. -/
theorem featureOf_spec_witness :
    featureOf [⟨"bored", "Artist", "driving"⟩] = featureOf [] ∧
    featureOf [⟨"bored", "Artist", "driving"⟩] = [0, 0, 0, 0, 0, 0, 0, 0] :=
  ⟨(featureOf_spec [⟨"bored", "Artist", "driving"⟩] [] (by decide)).1,
   (featureOf_spec [⟨"bored", "Artist", "driving"⟩] [] (by decide)).2 (by decide)⟩

/-- A history event survives the write-read cycle. -/
theorem decodeEvent_encodeEvent (e : HistoryEvent) :
    decodeEvent (encodeEvent e) = some e := rfl

/-- A song survives the write-read cycle. -/
theorem decodeSong_encodeSong (s : Song) :
    decodeSong (encodeSong s) = some s := rfl

/-- A history list survives the write-read cycle. -/
theorem decodeEvents_map (es : List HistoryEvent) :
    decodeEvents (es.map encodeEvent) = some es := by
  induction es with
  | nil => rfl
  | cons e es ih => simp [decodeEvents, decodeEvent_encodeEvent, ih]

/-- A playlist survives the write-read cycle. -/
theorem decodeSongs_map (ss : List Song) :
    decodeSongs (ss.map encodeSong) = some ss := by
  induction ss with
  | nil => rfl
  | cons s ss ih => simp [decodeSongs, decodeSong_encodeSong, ih]

/-- A profile survives the write-read cycle. -/
theorem decodeProfile_encodeProfile (p : UserProfile) :
    decodeProfile (encodeProfile p) = some p := by
  simp only [encodeProfile, decodeProfile]
  rw [decodeEvents_map, decodeSongs_map]

/-- C6: writing any profile store with `save_users` and reading it back with
`load_users` restores the identical mapping, field for field. -/
theorem load_users_save_users (users : Store) :
    load_users (save_users users) = some users := by
  simp only [load_users, save_users]
  induction users with
  | nil => rfl
  | cons up rest ih =>
    simp [decodeEntries, decodeProfile_encodeProfile, ih]
